import Mathlib

/-!
Verification of the assembly-line discrete-event simulation kernel.

This file shallowly embeds the kernel's data model and operations
(`app/models/*.py`, `app/core/*.py`) in Lean and settles the frozen
claims about them.  Machine floats are modelled by `ℚ`; the two random
streams of the program (`np.random` for durations, the stdlib `random`
module for rework draws) are modelled as explicit input streams.
-/

namespace SimKernel

/-- Operation type, from `app/models/enums.py` (`OpType`): H/A/M/T/D. -/
inductive OpType
  | H | A | M | T | D
  deriving DecidableEq, Repr

/-- Gantt event kind, from `app/models/enums.py` (`GanttEventType`). -/
inductive GanttEventType
  | NORMAL | REST | REWORK | WAITING
  deriving DecidableEq, Repr

/-- Worker state, from `app/models/enums.py` (`WorkerState`). -/
inductive WorkerState
  | IDLE | WORKING | RESTING
  deriving DecidableEq, Repr

/-- One timeline event, from `app/models/gantt_model.py` (`GanttEvent`). -/
structure GanttEvent where
  engine_id : ℕ
  step_id : String
  task_name : String
  op_type : OpType
  start_time : ℚ
  end_time : ℚ
  event_type : GanttEventType
  worker_ids : List String
  equipment_used : List String
  rework_count : ℕ
  deriving DecidableEq, Repr

/-- Global configuration, from `app/models/config_model.py` (`GlobalConfig`).
Only the fields the kernel reads are kept. -/
structure GlobalConfig where
  work_hours_per_day : ℕ
  work_days_per_month : ℕ
  num_workers : ℕ
  rest_time_threshold : ℚ
  rest_duration_time : ℚ
  rest_load_threshold : ℕ
  rest_duration_load : ℚ
  target_output : ℕ
  pipeline_mode : Bool
  deriving DecidableEq, Repr

/-- Embeds `GlobalConfig.sim_time_minutes`: hours per day times 60 times days. -/
def GlobalConfig.sim_time_minutes (c : GlobalConfig) : ℚ :=
  (c.work_hours_per_day : ℚ) * 60 * (c.work_days_per_month : ℚ)

/-- One task definition, from `app/models/process_model.py` (`ProcessNode`).
`predecessors` holds the already-split list
(the result of `get_predecessor_list`). -/
structure ProcessNode where
  step_id : String
  task_name : String
  op_type : OpType
  predecessors : List String
  std_duration : ℚ
  time_variance : ℚ
  work_load_score : ℕ
  rework_prob : ℚ
  required_workers : ℕ
  required_tools : List String
  deriving DecidableEq, Repr

/-! ## Event collector (`app/core/event_collector.py`) -/

/-- The collector's counter state: `total_inspections`, `total_reworks`,
`rework_time_total` (`EventCollector.__init__`). -/
structure CollectorStats where
  total_inspections : ℕ
  total_reworks : ℕ
  rework_time_total : ℚ
  deriving DecidableEq, Repr

/-- Fresh counters, as set in `EventCollector.__init__`. -/
def CollectorStats.init : CollectorStats :=
  { total_inspections := 0, total_reworks := 0, rework_time_total := 0 }

/-- Embeds `EventCollector.add_event`, counter part: every event with
`op_type == "M"` bumps `total_inspections`; every `REWORK` event bumps
`total_reworks` and accumulates its duration. -/
def addEvent (s : CollectorStats) (e : GanttEvent) : CollectorStats :=
  let s1 := if e.op_type = OpType.M then
    { s with total_inspections := s.total_inspections + 1 } else s
  if e.event_type = GanttEventType.REWORK then
    { s1 with total_reworks := s1.total_reworks + 1,
              rework_time_total := s1.rework_time_total + (e.end_time - e.start_time) }
  else s1

/-- Counters after appending a whole event list in order. -/
def collectStats (events : List GanttEvent) : CollectorStats :=
  events.foldl addEvent CollectorStats.init

/-- Embeds `EventCollector.get_quality_stats`: the first-pass rate,
`(total_inspections - total_reworks) / total_inspections` when there was
at least one inspection, else `1.0`. -/
def first_pass_rate (s : CollectorStats) : ℚ :=
  if 0 < s.total_inspections then
    ((s.total_inspections : ℚ) - (s.total_reworks : ℚ)) / (s.total_inspections : ℚ)
  else 1

/-- Number of events that are both `NORMAL` and of op type `M`
(what the spec calls the inspections). -/
def mNormalCount (events : List GanttEvent) : ℕ :=
  (events.filter (fun e =>
    e.event_type = GanttEventType.NORMAL ∧ e.op_type = OpType.M)).length

/-- Number of events of op type `M` of any kind
(what `add_event` actually counts). -/
def mEventCount (events : List GanttEvent) : ℕ :=
  (events.filter (fun e => e.op_type = OpType.M)).length

/-! ## Workers (`app/models/worker_model.py`, `app/core/worker_pool.py`) -/

/-- Worker entity, from `app/models/worker_model.py` (`WorkerAgent`). -/
structure WorkerAgent where
  id : String
  state : WorkerState
  consecutive_work_time : ℚ
  total_work_time : ℚ
  total_rest_time : ℚ
  tasks_completed : ℕ
  fatigue_level : ℚ
  high_intensity_count : ℕ
  fatigue_history : List (ℚ × ℚ)
  deriving DecidableEq, Repr

/-- A freshly created worker (`WorkerAgent` dataclass defaults). -/
def WorkerAgent.fresh (id : String) : WorkerAgent :=
  { id := id, state := WorkerState.IDLE, consecutive_work_time := 0,
    total_work_time := 0, total_rest_time := 0, tasks_completed := 0,
    fatigue_level := 0, high_intensity_count := 0, fatigue_history := [] }

/-- Embeds `WorkerAgent.needs_time_rest`: rule A triggers when
`consecutive_work_time >= threshold`. -/
def WorkerAgent.needs_time_rest (w : WorkerAgent) (threshold : ℚ) : Bool :=
  threshold ≤ w.consecutive_work_time

/-- Embeds `WorkerAgent.apply_rest`: accumulate rest time, clear consecutive work
time, recover fatigue at two points per rested minute, record a history
sample. -/
def WorkerAgent.apply_rest (w : WorkerAgent) (duration current_time : ℚ) :
    WorkerAgent :=
  let recovery := min (duration * 2) w.fatigue_level
  let level := max 0 (w.fatigue_level - recovery)
  { w with total_rest_time := w.total_rest_time + duration,
           consecutive_work_time := 0,
           fatigue_level := level,
           fatigue_history := w.fatigue_history ++ [(current_time + duration, level)] }

/-- Embeds `WorkerAgent.add_work_time`: accrue consecutive and total work time,
fatigue  (`duration * (load/10) * 0.5`, capped at 100), the high-intensity
counter for  load `>= 7`, and a history sample. -/
def WorkerAgent.add_work_time (w : WorkerAgent)
    (duration : ℚ) (work_load_score : ℕ) (current_time : ℚ) : WorkerAgent :=
  let fatigue_factor : ℚ := (work_load_score : ℚ) / 10
  let fatigue_increase := duration * fatigue_factor * (1 / 2)
  let level := min 100 (w.fatigue_level + fatigue_increase)
  let hic := if 7 ≤ work_load_score then w.high_intensity_count + 1
             else w.high_intensity_count
  { w with consecutive_work_time := w.consecutive_work_time + duration,
           total_work_time := w.total_work_time + duration,
           fatigue_level := level,
           high_intensity_count := hic,
           fatigue_history := w.fatigue_history ++ [(current_time + duration, level)] }

/-- Embeds `WorkerPool.check_workers_need_rest`: any worker over the threshold
triggers rule A for the whole crew. -/
def check_workers_need_rest (workers : List WorkerAgent) (threshold : ℚ) : Bool :=
  workers.any (fun w => w.needs_time_rest threshold)

/-- Embeds `WorkerPool.execute_rest`, state part: every worker in the crew rests
for `duration` starting at `rest_start` (ending in state WORKING, still
held by the task). -/
def execute_rest (workers : List WorkerAgent) (duration rest_start : ℚ) :
    List WorkerAgent :=
  workers.map (fun w =>
    { w.apply_rest duration rest_start with state := WorkerState.WORKING })

/-- Embeds `WorkerPool.add_work_time_to_workers`. -/
def add_work_time_to_workers (workers : List WorkerAgent)
    (duration : ℚ) (work_load_score : ℕ) (current_time : ℚ) : List WorkerAgent :=
  workers.map (fun w => w.add_work_time duration work_load_score current_time)

/-- The rule-A block of `TaskExecutor.execute_task` (lines 124-134): after
acquisition, if any crew member needs a time rest, the whole crew rests
for `rest_duration_time`; otherwise the crew is unchanged. Returns the
crew as it stands when the work interval starts. -/
def ruleABlock (workers : List WorkerAgent)
    (rest_time_threshold rest_duration_time now : ℚ) : List WorkerAgent :=
  if check_workers_need_rest workers rest_time_threshold then
    execute_rest workers rest_duration_time now
  else workers

/-! ## Load-balanced worker selection (`WorkerPool.request_workers`) -/

/-- Stable insertion of a worker into a list sorted ascending by
`total_work_time`: the inserted element goes before later-listed elements
with an equal key, matching Python's stable `list.sort`. -/
def insertByWork (w : WorkerAgent) : List WorkerAgent → List WorkerAgent
  | [] => [w]
  | x :: xs =>
    if w.total_work_time ≤ x.total_work_time then w :: x :: xs
    else x :: insertByWork w xs

/-- Stable sort ascending by `total_work_time`
(`idle_workers.sort(key=lambda w: w.total_work_time)`). -/
def sortByWork : List WorkerAgent → List WorkerAgent
  | [] => []
  | x :: xs => insertByWork x (sortByWork xs)

/-- One selection step of `WorkerPool.request_workers` (lines 71-79):
filter the store items to the idle workers, stable-sort them ascending by
`total_work_time`, and take the first. `items` is `store.items` in its
current order. -/
def selectWorker (items : List WorkerAgent) : Option WorkerAgent :=
  let idle_workers := items.filter (fun w => w.state = WorkerState.IDLE)
  (sortByWork idle_workers).head?

/-- Reference selection following the amended spec wording: scan the idle
workers left to right (store order) and keep the first one whose
`total_work_time` is strictly smaller than the best so far, i.e. the
earliest-positioned minimum. -/
def pickFirstMin : List WorkerAgent → Option WorkerAgent
  | [] => none
  | x :: xs =>
    match pickFirstMin xs with
    | none => some x
    | some m => if x.total_work_time ≤ m.total_work_time then some x else some m

/-! ## Duration sampling (`TaskExecutor._calculate_duration`) -/

/-- Embeds `TaskExecutor._calculate_duration`: when `variance <= 0` the nominal
duration is returned as is; otherwise the normal sample (modelled as the
explicit argument `sample`) is clamped to at least `1.0`. -/
def calculate_duration (std_duration variance sample : ℚ) : ℚ :=
  if variance ≤ 0 then std_duration
  else max 1 sample

/-! ## Task executor (`app/core/task_executor.py`, `TaskExecutor.execute_task`)

One loop pass of `execute_task` consumes three environment inputs: the
virtual time the acquire phase blocked, the `np.random.normal` duration
sample, and the outcome of the `random.random() < rework_prob` Bernoulli
draw (the stdlib RNG stream).  The embed threads the acquired crew and
virtual clock explicitly; the equipment names the node holds are passed
as `crit` (the critical subset of `required_tools`). -/

/-- Environment inputs consumed by one pass of the `execute_task` loop. -/
structure IterInput where
  waitDur : ℚ
  sample : ℚ
  draw : Bool
  deriving DecidableEq, Repr

/-- Whether the quality check of phase 4 sends the task back to rework:
`node.op_type == OpType.M and node.rework_prob > 0` and the Bernoulli
draw came out below `rework_prob`. -/
def reworkTriggered (node : ProcessNode) (i : IterInput) : Bool :=
  decide (node.op_type = OpType.M) && decide (0 < node.rework_prob) && i.draw

/-- Events of phases 1-2 of one pass: the WAITING event (only when the
acquire phase actually blocked) and the rule-A REST event (only when some
crew member was over the threshold). `now` is the clock at pass entry. -/
def preEvents (cfg : GlobalConfig) (engine_id : ℕ) (node : ProcessNode)
    (crit : List String) (crew : List WorkerAgent) (i : IterInput) (now : ℚ) :
    List GanttEvent :=
  let wait_end := now + i.waitDur
  let waitEvs : List GanttEvent :=
    if now < wait_end then
      [{ engine_id := engine_id, step_id := node.step_id,
         task_name := node.task_name, op_type := node.op_type,
         start_time := now, end_time := wait_end,
         event_type := GanttEventType.WAITING, worker_ids := [],
         equipment_used := [], rework_count := 0 }]
    else []
  let restEvs : List GanttEvent :=
    if check_workers_need_rest crew cfg.rest_time_threshold then
      [{ engine_id := engine_id, step_id := node.step_id,
         task_name := node.task_name, op_type := node.op_type,
         start_time := wait_end, end_time := wait_end + cfg.rest_duration_time,
         event_type := GanttEventType.REST,
         worker_ids := crew.map (fun w => w.id),
         equipment_used := crit, rework_count := 0 }]
    else []
  waitEvs ++ restEvs

/-- State at the start of the work interval: the crew after acquisition
(state WORKING) and the rule-A block, and the clock value `task_start`. -/
def preState (cfg : GlobalConfig) (crew : List WorkerAgent) (i : IterInput)
    (now : ℚ) : List WorkerAgent × ℚ :=
  let crewA := crew.map (fun w => { w with state := WorkerState.WORKING })
  let wait_end := now + i.waitDur
  if check_workers_need_rest crewA cfg.rest_time_threshold then
    (execute_rest crewA cfg.rest_duration_time wait_end,
     wait_end + cfg.rest_duration_time)
  else (crewA, wait_end)

/-- Embeds `TaskExecutor.execute_task`: the full rework loop.  Consumes one
`IterInput` per pass; when the input list is exhausted the pass runs with
a blank input (no blocking, no rework draw), which always completes.
Returns the events appended in order, the final rework count, the crew
after release, and the clock. -/
def executeTask (cfg : GlobalConfig) (engine_id : ℕ) (node : ProcessNode)
    (crit : List String) :
    List IterInput → List WorkerAgent → ℚ → ℕ →
    List GanttEvent × ℕ × List WorkerAgent × ℚ
  | ins, crew, now, rc =>
    let i := match ins with
      | [] => { waitDur := 0, sample := 0, draw := false }
      | j :: _ => j
    let pre := preEvents cfg engine_id node crit
      (crew.map (fun w => { w with state := WorkerState.WORKING })) i now
    let st := preState cfg crew i now
    let task_start := st.2
    let d := calculate_duration node.std_duration node.time_variance i.sample
    let task_end := task_start + d
    let crewW := add_work_time_to_workers st.1 d node.work_load_score task_start
    if reworkTriggered node i then
      let rwEv : GanttEvent :=
        { engine_id := engine_id, step_id := node.step_id,
          task_name := node.task_name, op_type := node.op_type,
          start_time := task_start, end_time := task_end,
          event_type := GanttEventType.REWORK,
          worker_ids := crewW.map (fun w => w.id),
          equipment_used := crit, rework_count := rc + 1 }
      let crewR := crewW.map (fun w => { w with state := WorkerState.IDLE })
      match ins with
      | [] => (pre ++ [rwEv], rc + 1, crewR, task_end)
      | _ :: rest =>
        let r := executeTask cfg engine_id node crit rest crewR task_end (rc + 1)
        (pre ++ [rwEv] ++ r.1, r.2.1, r.2.2.1, r.2.2.2)
    else
      let ruleB := decide (cfg.rest_load_threshold < node.work_load_score)
      let crewB := if ruleB then
          execute_rest crewW cfg.rest_duration_load task_end else crewW
      let now4 := if ruleB then task_end + cfg.rest_duration_load else task_end
      let restBEvs : List GanttEvent :=
        if ruleB then
          [{ engine_id := engine_id, step_id := node.step_id,
             task_name := node.task_name, op_type := node.op_type,
             start_time := task_end, end_time := now4,
             event_type := GanttEventType.REST,
             worker_ids := crewB.map (fun w => w.id),
             equipment_used := crit, rework_count := 0 }]
        else []
      let crewF := (crewB.map (fun w =>
        { w with tasks_completed := w.tasks_completed + 1 })).map
          (fun w => { w with state := WorkerState.IDLE })
      let nEv : GanttEvent :=
        { engine_id := engine_id, step_id := node.step_id,
          task_name := node.task_name, op_type := node.op_type,
          start_time := task_start, end_time := task_end,
          event_type := GanttEventType.NORMAL,
          worker_ids := crewF.map (fun w => w.id),
          equipment_used := crit, rework_count := rc }
      (pre ++ restBEvs ++ [nEv], rc, crewF, now4)

/-- Number of REWORK events in a trace. -/
def reworkEventCount (events : List GanttEvent) : ℕ :=
  (events.filter (fun e => e.event_type = GanttEventType.REWORK)).length

/-- The `rework_count` fields of the NORMAL events of a trace, in order. -/
def normalReworkCounts (events : List GanttEvent) : List ℕ :=
  (events.filter (fun e => e.event_type = GanttEventType.NORMAL)).map
    (fun e => e.rework_count)

/-! ## DAG scheduler (`app/core/dag_scheduler.py`)

`_build_graph` adds one vertex per task and an edge `pred -> step` for
every predecessor reference whose id exists among the tasks — a
reference to an unknown id is silently dropped (`if pred_id in
self.node_map`).  `validate` checks only that the graph is acyclic
(`nx.is_directed_acyclic_graph`) and that some vertex has in-degree 0.
Acyclicity is embedded as the standard peeling fixpoint: repeatedly keep
exactly the vertices that still have an incoming edge from the surviving
set; the graph is acyclic iff the fixpoint (reached within `|V|` steps)
is empty. -/

/-- The vertex list of the process graph: one id per task. -/
def nodeIds (nodes : List ProcessNode) : List String :=
  nodes.map (fun n => n.step_id)

/-- Embeds `DAGScheduler._build_graph`, edge part: an edge `(pred, step)` for
every predecessor reference whose id is a declared task; unknown
references are dropped. -/
def buildEdges (nodes : List ProcessNode) : List (String × String) :=
  nodes.flatMap (fun n =>
    (n.predecessors.filter (fun p => p ∈ nodeIds nodes)).map
      (fun p => (p, n.step_id)))

/-- Does `v` still have an incoming edge from the surviving vertex set? -/
def hasIncomingFrom (edges : List (String × String))
    (remaining : List String) (v : String) : Bool :=
  edges.any (fun e => decide (e.2 = v ∧ e.1 ∈ remaining))

/-- One peeling step: survive iff some in-edge comes from a survivor. -/
def kahnStep (edges : List (String × String)) (remaining : List String) :
    List String :=
  remaining.filter (fun v => hasIncomingFrom edges remaining v)

/-- Iterated peeling. -/
def kahnIter (edges : List (String × String)) : ℕ → List String → List String
  | 0, r => r
  | n + 1, r => kahnIter edges n (kahnStep edges r)

/-- Embeds `nx.is_directed_acyclic_graph` on the built graph: the peeling
fixpoint is empty. -/
def isAcyclicB (nodes : List ProcessNode) : Bool :=
  (kahnIter (buildEdges nodes) (nodeIds nodes).length (nodeIds nodes)).isEmpty

/-- Embeds the check that `DAGScheduler.get_start_nodes` is nonempty: some vertex has
in-degree 0. -/
def hasStartNode (nodes : List ProcessNode) : Bool :=
  (nodeIds nodes).any (fun v => !(buildEdges nodes).any (fun e => decide (e.2 = v)))

/-- Embeds `DAGScheduler.validate`: acyclic and has a start node. -/
def validateGraph (nodes : List ProcessNode) : Bool :=
  isAcyclicB nodes && hasStartNode nodes

/-- The part of `SimulationEngine._create_failed_result` the claims
observe: a FAILED status, zero completed engines, and the default empty
event list. -/
structure GateResult where
  failed : Bool
  engines_completed : ℕ
  gantt_events : List GanttEvent
  deriving DecidableEq, Repr

/-- The validation gate of `SimulationEngine.run` (lines 94-97): the DAG
is validated before any process is scheduled; on failure the driver
returns the failed result, otherwise the run proceeds (`none`). -/
def runValidationGate (nodes : List ProcessNode) : Option GateResult :=
  if validateGraph nodes then none
  else some { failed := true, engines_completed := 0, gantt_events := [] }

/-- A cycle in the edge list: a chain of edges from `v` through `vs`
and back to `v` (a self-loop is `vs = []`). -/
def IsCycle (edges : List (String × String)) (v : String) (vs : List String) :
    Prop :=
  List.Chain (fun a b => (a, b) ∈ edges) v (vs ++ [v])

/-! ## Equipment manager (`app/core/equipment_manager.py`)

A critical equipment of capacity `c` is a `simpy.PriorityResource`: a
request is granted only while fewer than `c` holders exist.  A holder
calls `log_usage_start` right after the grant and `log_usage_end` before
releasing, so the usage log of `E` is driven by a time-ordered trace of
grant/release points interleaved with clock advances; the semaphore
guarantees the guard `inUse < c` at every grant.  The log keeps open
entries (code sentinel `-1`) newest first, matching the backwards scan of
`log_usage_end`. -/

/-- One usage-log entry: start time, and close time once finished. -/
structure EqLogEntry where
  start : ℚ
  closeTime : Option ℚ
  deriving DecidableEq, Repr

/-- One step of the usage trace of a single equipment. -/
inductive EqOp
  | advance (δ : ℚ)
  | grant
  | release
  deriving DecidableEq, Repr

/-- Manager state for one equipment: virtual clock, usage log (newest
first), and the current holder count (`current_usage`). -/
structure EqState where
  now : ℚ
  log : List EqLogEntry
  inUse : ℕ
  deriving DecidableEq, Repr

/-- State at driver start (`EquipmentManager.__init__`). -/
def EqState.init : EqState := { now := 0, log := [], inUse := 0 }

/-- Embeds `log_usage_end`: close the most recent still-open entry at time `t`. -/
def closeFirstOpen (t : ℚ) : List EqLogEntry → List EqLogEntry
  | [] => []
  | en :: rest =>
    if en.closeTime = none then { en with closeTime := some t } :: rest
    else en :: closeFirstOpen t rest

/-- Trace step: advance the clock, or `log_usage_start` after a grant,
or `log_usage_end` before a release. -/
def eqStep (st : EqState) : EqOp → EqState
  | EqOp.advance δ => { st with now := st.now + δ }
  | EqOp.grant =>
    { st with log := { start := st.now, closeTime := none } :: st.log,
              inUse := st.inUse + 1 }
  | EqOp.release =>
    { st with log := closeFirstOpen st.now st.log, inUse := st.inUse - 1 }

/-- Guards of a well-formed trace: time never goes backwards
(the scheduler clock is monotone), a grant happens only below capacity
(the `PriorityResource` semantics), a release only by a holder. -/
def eqGuard (c : ℕ) (st : EqState) : EqOp → Bool
  | EqOp.advance δ => decide (0 ≤ δ)
  | EqOp.grant => decide (st.inUse < c)
  | EqOp.release => decide (0 < st.inUse)

/-- A trace is valid when every step's guard holds in the state it runs
from. -/
def eqValid (c : ℕ) (st : EqState) : List EqOp → Bool
  | [] => true
  | op :: rest => eqGuard c st op && eqValid c (eqStep st op) rest

/-- Run a trace. -/
def eqRun (st : EqState) (ops : List EqOp) : EqState :=
  ops.foldl eqStep st

/-- Number of simultaneously open usage intervals in a log. -/
def openCount (log : List EqLogEntry) : ℕ :=
  (log.filter (fun en => en.closeTime = none)).length

/-- Embeds `get_equipment_utilization`, numerator: sum of `end - start` over
closed entries plus `now - start` over still-open entries. -/
def usageSum (now : ℚ) (log : List EqLogEntry) : ℚ :=
  log.foldr (fun en acc =>
    acc + (match en.closeTime with
           | some e => e - en.start
           | none => now - en.start)) 0

/-- Embeds `get_equipment_utilization`, final division: usage over
`total_time * capacity`, `0` when that product is not positive. -/
def utilizationRate (c : ℕ) (total_time usage : ℚ) : ℚ :=
  if 0 < total_time * (c : ℚ) then usage / (total_time * (c : ℚ)) else 0

/-- The run invariant for one equipment of capacity `c`: holder count
within capacity, one open log entry per holder, and summed usage within
`c` times the elapsed clock. -/
def EqInv (c : ℕ) (st : EqState) : Prop :=
  st.inUse ≤ c ∧ openCount st.log = st.inUse ∧
    usageSum st.now st.log ≤ (c : ℚ) * st.now

/-! ## Sequential driver on a single-task process
(`SimulationEngine._single_engine_process` + `_engine_process`)

For a process that is a single task needing one worker and no tools, the
sequential driver runs engines back to back: engine `k` is admitted while
`engine_id <= target_output + 1` and `now <` the time budget; its task is
spawned immediately (the worker is idle at engine start, so the acquire
phase never blocks and the blank input stream is exact), and the
engine loop, which polls every `0.1` virtual minutes from the engine's
start, observes the completion at the first poll instant at or after the
task finishes.  An engine cut off by the hard stop at the time budget
contributes no completion. -/

/-- First poll instant of the engine loop (period `0.1` from `start`)
at or after time `t`. -/
def engineObserve (start t : ℚ) : ℚ :=
  start + (1 / 10) * ((((t - start) / (1 / 10)).ceil : ℤ) : ℚ)

/-- Accumulated run outcome: event log, completed engines, cycle times. -/
structure SeqState where
  events : List GanttEvent
  completed : ℕ
  cycles : List ℚ
  deriving DecidableEq, Repr

/-- The sequential loop: while `engine_id` has not passed
`target_output + 1` (fuel counts the remaining admissions) and the clock
is below the budget, run one engine to completion and continue at the
instant its completion is observed. -/
def seqGo (cfg : GlobalConfig) (node : ProcessNode) :
    ℕ → ℕ → List WorkerAgent → ℚ → SeqState → SeqState
  | 0, _, _, _, st => st
  | fuel + 1, engine_id, crew, now, st =>
    if now < cfg.sim_time_minutes then
      let r := executeTask cfg engine_id node [] [] crew now 0
      let engineEnd := engineObserve now r.2.2.2
      if engineEnd ≤ cfg.sim_time_minutes then
        seqGo cfg node fuel (engine_id + 1) r.2.2.1 engineEnd
          { events := st.events ++ r.1, completed := st.completed + 1,
            cycles := st.cycles ++ [engineEnd - now] }
      else st
    else st

/-- Embeds `SimulationEngine.run` in sequential mode on a one-task one-worker
process: up to `target_output + 1` engines from virtual time 0. -/
def seqRun (cfg : GlobalConfig) (node : ProcessNode) : SeqState :=
  seqGo cfg node (cfg.target_output + 1) 1 [WorkerAgent.fresh "Worker_01"] 0
    { events := [], completed := 0, cycles := [] }

/-- Embeds `_collect_results`: mean cycle time over completed engines, `0` when
none completed. -/
def avgCycleTime (st : SeqState) : ℚ :=
  if st.cycles = [] then 0 else st.cycles.sum / (st.cycles.length : ℚ)

/-- Number of NORMAL events in a trace. -/
def normalEventCount (events : List GanttEvent) : ℕ :=
  (events.filter (fun e => e.event_type = GanttEventType.NORMAL)).length

/-! ## One task-executor call of a full run (used to state run-level
quality properties over any interleaving of executor instances). -/

/-- The parameters of one `execute_task` invocation inside a run. -/
structure ExecCall where
  cfg : GlobalConfig
  engine_id : ℕ
  node : ProcessNode
  crit : List String
  ins : List IterInput
  crew : List WorkerAgent
  startTime : ℚ

/-- The events that invocation appends. -/
def execCallEvents (c : ExecCall) : List GanttEvent :=
  (executeTask c.cfg c.engine_id c.node c.crit c.ins c.crew c.startTime 0).1

/-! ## Concrete instances used by counterexamples and witnesses -/

/-- Default configuration values of `GlobalConfig` with one worker. -/
def cfgDemo : GlobalConfig :=
  { work_hours_per_day := 8, work_days_per_month := 22, num_workers := 1,
    rest_time_threshold := 50, rest_duration_time := 5,
    rest_load_threshold := 7, rest_duration_load := 3,
    target_output := 1, pipeline_mode := false }

/-- An M-type inspection task with even-odds rework. -/
def mNode : ProcessNode :=
  { step_id := "S001", task_name := "inspect", op_type := OpType.M,
    predecessors := [], std_duration := 10, time_variance := 0,
    work_load_score := 5, rework_prob := 1 / 2, required_workers := 1,
    required_tools := [] }

/-- A single-worker crew. -/
def crew1 : List WorkerAgent := [WorkerAgent.fresh "Worker_01"]

/-- The S1 boundary scenario configuration: one worker, T = 60 minutes,
target one unit, sequential mode, default rest parameters. -/
def s1cfg : GlobalConfig :=
  { work_hours_per_day := 1, work_days_per_month := 1, num_workers := 1,
    rest_time_threshold := 50, rest_duration_time := 5,
    rest_load_threshold := 7, rest_duration_load := 3,
    target_output := 1, pipeline_mode := false }

/-- The S1 task: mu = 10, sigma = 0, w = 5, rework probability 0. -/
def s1node : ProcessNode :=
  { step_id := "S001", task_name := "single", op_type := OpType.A,
    predecessors := [], std_duration := 10, time_variance := 0,
    work_load_score := 5, rework_prob := 0, required_workers := 1,
    required_tools := [] }

/-- A store whose item order differs from id order: after releases,
`store.items` holds workers in return order, here `Worker_02` before
`Worker_01`, both idle with equal `total_work_time`. -/
def storeDemo : List WorkerAgent :=
  [WorkerAgent.fresh "Worker_02", WorkerAgent.fresh "Worker_01"]

/-- A process referencing a predecessor id that no task declares. -/
def missingPredProcess : List ProcessNode :=
  [{ step_id := "S001", task_name := "a", op_type := OpType.H,
     predecessors := [], std_duration := 10, time_variance := 0,
     work_load_score := 5, rework_prob := 0, required_workers := 1,
     required_tools := [] },
   { step_id := "S002", task_name := "b", op_type := OpType.H,
     predecessors := ["INVALID"], std_duration := 10, time_variance := 0,
     work_load_score := 5, rework_prob := 0, required_workers := 1,
     required_tools := [] }]

/-- A valid usage trace for a capacity-1 equipment: one holder for five
minutes, then three idle minutes. -/
def eqOpsDemo : List EqOp :=
  [EqOp.grant, EqOp.advance 5, EqOp.release, EqOp.advance 3]

/-- A one-task process whose task lists itself as predecessor. -/
def selfLoopProcess : List ProcessNode :=
  [{ step_id := "A", task_name := "a", op_type := OpType.H,
     predecessors := ["A"], std_duration := 10, time_variance := 0,
     work_load_score := 5, rework_prob := 0, required_workers := 1,
     required_tools := [] }]

/-! # Theorems -/

/-! ## Counter bookkeeping of `add_event` -/

lemma addEvent_total_inspections (s : CollectorStats) (e : GanttEvent) :
    (addEvent s e).total_inspections =
      if e.op_type = OpType.M then s.total_inspections + 1
      else s.total_inspections := by
  simp only [addEvent]
  split <;> split <;> rfl

lemma addEvent_total_reworks (s : CollectorStats) (e : GanttEvent) :
    (addEvent s e).total_reworks =
      if e.event_type = GanttEventType.REWORK then s.total_reworks + 1
      else s.total_reworks := by
  simp only [addEvent]
  split <;> split <;> rfl

lemma foldl_addEvent_inspections :
    ∀ (events : List GanttEvent) (s : CollectorStats),
      (events.foldl addEvent s).total_inspections =
        s.total_inspections + mEventCount events := by
  intro events
  induction events with
  | nil => intro s; simp [mEventCount]
  | cons e es ih =>
    intro s
    rw [List.foldl_cons, ih, addEvent_total_inspections]
    by_cases h : e.op_type = OpType.M
    · rw [if_pos h]
      have hc : mEventCount (e :: es) = mEventCount es + 1 := by
        simp [mEventCount, List.filter_cons, h]
      rw [hc]; omega
    · rw [if_neg h]
      have hc : mEventCount (e :: es) = mEventCount es := by
        simp [mEventCount, List.filter_cons, h]
      rw [hc]

lemma foldl_addEvent_reworks :
    ∀ (events : List GanttEvent) (s : CollectorStats),
      (events.foldl addEvent s).total_reworks =
        s.total_reworks + reworkEventCount events := by
  intro events
  induction events with
  | nil => intro s; simp [reworkEventCount]
  | cons e es ih =>
    intro s
    rw [List.foldl_cons, ih, addEvent_total_reworks]
    by_cases h : e.event_type = GanttEventType.REWORK
    · rw [if_pos h]
      have hc : reworkEventCount (e :: es) = reworkEventCount es + 1 := by
        simp [reworkEventCount, List.filter_cons, h]
      rw [hc]; omega
    · rw [if_neg h]
      have hc : reworkEventCount (e :: es) = reworkEventCount es := by
        simp [reworkEventCount, List.filter_cons, h]
      rw [hc]

lemma length_filter_le_of_imp {α : Type} (p q : α → Bool) (l : List α)
    (h : ∀ x ∈ l, p x = true → q x = true) :
    (l.filter p).length ≤ (l.filter q).length := by
  induction l with
  | nil => simp
  | cons a t ih =>
    have ht : ∀ x ∈ t, p x = true → q x = true := by
      intro x hx; exact h x (List.mem_cons_of_mem a hx)
    simp only [List.filter_cons]
    by_cases hp : p a = true
    · have hq := h a (List.mem_cons_self a t) hp
      simp [hp, hq]
      exact ih ht
    · simp [hp]
      split
      · exact Nat.le_succ_of_le (ih ht)
      · exact ih ht

/-! ## C3 — duration clamping -/

/-- C3 (code bug evaluation): the claim and the function's own
documentation say the computed duration is always at least `1.0`, for
every `sigma >= 0` including `sigma = 0`.  But `_calculate_duration`
returns `std_duration` unclamped whenever `variance <= 0`: at
`mu = 0.5`, `sigma = 0` it returns `0.5 < 1.0`. -/
theorem calculate_duration_unclamped_at_zero_variance :
    calculate_duration (1 / 2) 0 0 = 1 / 2 ∧
    calculate_duration (1 / 2) 0 0 < 1 := by
  constructor
  · rfl
  · with_unfolding_all decide

/-! ## C4 — what `total_inspections` counts -/

/-- C4 (counterexample): an M-type task that blocks for 5 minutes in the
acquire phase emits a WAITING event and then its NORMAL event; `add_event`
bumps `total_inspections` for both because both carry `op_type = M`, so the
quality statistic is 2 while the trace has only 1 M-type NORMAL event —
refuting the claim that only M-type NORMAL events are counted. -/
theorem inspections_count_nonnormal_m_event :
    (collectStats
      (executeTask cfgDemo 1 mNode [] [⟨5, 0, false⟩] crew1 0 0).1).total_inspections = 2 ∧
    mNormalCount (executeTask cfgDemo 1 mNode [] [⟨5, 0, false⟩] crew1 0 0).1 = 1 ∧
    (2 : ℕ) ≠ 1 := by
  refine ⟨by with_unfolding_all decide, by with_unfolding_all decide, by with_unfolding_all decide⟩

/-- C4 (amended): `total_inspections` equals the number of events of
op type `M` of any kind, so WAITING, REST and REWORK events appended for
an M-type task each increase the inspection count. -/
theorem total_inspections_counts_all_m_events (events : List GanttEvent) :
    (collectStats events).total_inspections = mEventCount events := by
  have h := foldl_addEvent_inspections events CollectorStats.init
  simpa [collectStats, CollectorStats.init] using h

/-! ## C1 — determinism under a fixed seed -/

/-- C1 (code bug evaluation): `SimulationEngine.__init__` seeds only
`np.random`, while `TaskExecutor._check_rework` draws from the stdlib
`random` module, which the engine never seeds.  The rework Bernoulli
stream is therefore an input the configuration seed does not fix: two
invocations with identical config, process and seed, and identical
(seeded) duration samples, but different stdlib streams, yield different
quality counters `total_reworks` and `first_pass_rate`. -/
theorem rework_draw_unseeded_stream_changes_counters :
    (collectStats
      (executeTask cfgDemo 1 mNode [] [⟨0, 10, true⟩, ⟨0, 10, false⟩]
        crew1 0 0).1).total_reworks = 1 ∧
    (collectStats
      (executeTask cfgDemo 1 mNode [] [⟨0, 10, false⟩]
        crew1 0 0).1).total_reworks = 0 ∧
    first_pass_rate (collectStats
      (executeTask cfgDemo 1 mNode [] [⟨0, 10, true⟩, ⟨0, 10, false⟩]
        crew1 0 0).1) ≠
    first_pass_rate (collectStats
      (executeTask cfgDemo 1 mNode [] [⟨0, 10, false⟩] crew1 0 0).1) := by
  refine ⟨by with_unfolding_all decide, by with_unfolding_all decide, by with_unfolding_all decide⟩

/-! ## C6 — worker selection -/

lemma insertByWork_head (w : WorkerAgent) (l : List WorkerAgent) :
    (insertByWork w l).head? = some (match l with
      | [] => w
      | x :: _ => if w.total_work_time ≤ x.total_work_time then w else x) := by
  cases l with
  | nil => rfl
  | cons x xs =>
    simp only [insertByWork]
    split <;> rfl

lemma sortByWork_head :
    ∀ l : List WorkerAgent, (sortByWork l).head? = pickFirstMin l := by
  intro l
  induction l with
  | nil => rfl
  | cons x xs ih =>
    simp only [sortByWork, pickFirstMin, insertByWork_head]
    cases hs : sortByWork xs with
    | nil =>
      have hp : pickFirstMin xs = none := by rw [← ih, hs]; rfl
      simp [hp]
    | cons a t =>
      have hp : pickFirstMin xs = some a := by rw [← ih, hs]; rfl
      simp only [hp]
      split <;> rfl

lemma pickFirstMin_cons (x : WorkerAgent) (xs : List WorkerAgent) :
    pickFirstMin (x :: xs) = match pickFirstMin xs with
      | none => some x
      | some m =>
        if x.total_work_time ≤ m.total_work_time then some x else some m := rfl

lemma pickFirstMin_eq_none :
    ∀ {xs : List WorkerAgent}, pickFirstMin xs = none → xs = [] := by
  intro xs h
  cases xs with
  | nil => rfl
  | cons b t =>
    exfalso
    rw [pickFirstMin_cons] at h
    cases h2 : pickFirstMin t with
    | none => simp [h2] at h
    | some mm =>
      simp only [h2] at h
      by_cases hle : b.total_work_time ≤ mm.total_work_time
      · rw [if_pos hle] at h; cases h
      · rw [if_neg hle] at h; cases h

lemma pickFirstMin_le :
    ∀ (l : List WorkerAgent) (m : WorkerAgent), pickFirstMin l = some m →
      ∀ v ∈ l, m.total_work_time ≤ v.total_work_time := by
  intro l
  induction l with
  | nil => intro m hm; cases hm
  | cons x xs ih =>
    intro m hm v hv
    cases hp : pickFirstMin xs with
    | none =>
      have hxs : xs = [] := pickFirstMin_eq_none hp
      subst hxs
      have hmx : m = x := by
        rw [pickFirstMin_cons] at hm
        simp [pickFirstMin] at hm
        exact hm.symm
      subst hmx
      rcases List.mem_singleton.mp hv with rfl
      exact le_refl _
    | some m0 =>
      rw [pickFirstMin_cons] at hm
      simp only [hp] at hm
      by_cases hle : x.total_work_time ≤ m0.total_work_time
      · rw [if_pos hle] at hm
        have hEq : x = m := Option.some.inj hm
        rcases List.mem_cons.mp hv with rfl | hvx
        · rw [← hEq]
        · rw [← hEq]; exact le_trans hle (ih m0 hp v hvx)
      · rw [if_neg hle] at hm
        have hEq : m0 = m := Option.some.inj hm
        rcases List.mem_cons.mp hv with rfl | hvx
        · rw [← hEq]; exact le_of_not_le hle
        · rw [← hEq]; exact ih m0 hp v hvx

lemma selectWorker_eq_pickFirstMin (items : List WorkerAgent) :
    selectWorker items =
      pickFirstMin (items.filter (fun w => w.state = WorkerState.IDLE)) := by
  simp [selectWorker, sortByWork_head]

/-- C6 (counterexample): in a store whose item order is `Worker_02` then
`Worker_01` (the order items return to a `FilterStore` after releases),
both idle with equal `total_work_time`, `request_workers` picks
`Worker_02` — not the smallest id `Worker_01` — because Python's stable
sort keeps store order among equal keys. -/
theorem worker_tie_not_broken_by_id :
    (selectWorker storeDemo).map (fun w => w.id) = some "Worker_02" ∧
    (∀ w ∈ storeDemo, w.state = WorkerState.IDLE ∧ w.total_work_time = 0) ∧
    "Worker_01" < "Worker_02" := by
  refine ⟨by with_unfolding_all decide, by with_unfolding_all decide, by with_unfolding_all decide⟩

/-- C6 (amended): among the currently idle workers, `request_workers`
picks one with the smallest `total_work_time`; ties are broken by
position in the store's item list (earliest first, i.e. FIFO of returns
to the store), not by worker id. -/
theorem request_workers_picks_first_least_loaded (items : List WorkerAgent) :
    selectWorker items =
      pickFirstMin (items.filter (fun w => w.state = WorkerState.IDLE)) ∧
    ∀ w, selectWorker items = some w →
      ∀ v ∈ items, v.state = WorkerState.IDLE →
        w.total_work_time ≤ v.total_work_time := by
  refine ⟨selectWorker_eq_pickFirstMin items, ?_⟩
  intro w hw v hv hst
  rw [selectWorker_eq_pickFirstMin items] at hw
  exact pickFirstMin_le _ w hw v (List.mem_filter.mpr ⟨hv, by simp [hst]⟩)

/-- Witness for C6's amended theorem at the concrete store. -/
theorem request_workers_picks_first_least_loaded_witness :
    (WorkerAgent.fresh "Worker_02").total_work_time ≤
      (WorkerAgent.fresh "Worker_01").total_work_time :=
  (request_workers_picks_first_least_loaded storeDemo).2
    (WorkerAgent.fresh "Worker_02") (by decide)
    (WorkerAgent.fresh "Worker_01") (by decide) (by decide)

/-! ## C7 — rule A bounds consecutive work at work start -/

/-- C7: rule A is checked after acquisition and a triggered rest resets
the whole crew's `consecutive_work_time` to 0, so when the work interval
starts every acquired worker is at or below `rest_time_threshold` (below
it when no rest fired, at 0 when one did).  `preState` is the crew state
at `task_start` of `execute_task`. -/
theorem rule_a_bounds_consecutive_work_at_work_start
    (cfg : GlobalConfig) (crew : List WorkerAgent) (i : IterInput) (now : ℚ)
    (hθ : 0 ≤ cfg.rest_time_threshold) :
    ∀ w ∈ (preState cfg crew i now).1,
      w.consecutive_work_time ≤ cfg.rest_time_threshold := by
  intro w hw
  simp only [preState] at hw
  split at hw
  · rcases List.mem_map.mp hw with ⟨x, _, rfl⟩
    simpa [WorkerAgent.apply_rest] using hθ
  · rename_i hac
    have hall : ∀ x ∈ crew.map (fun w => { w with state := WorkerState.WORKING }),
        ¬ (cfg.rest_time_threshold ≤ x.consecutive_work_time) := by
      intro x hx hcx
      exact hac (by
        simp only [check_workers_need_rest, List.any_eq_true]
        exact ⟨x, hx, by simp [WorkerAgent.needs_time_rest, hcx]⟩)
    exact le_of_lt (lt_of_not_le (hall w hw))

/-- Witness for C7 at a fresh single-worker crew with the default
threshold. -/
theorem rule_a_bounds_witness :
    ({ WorkerAgent.fresh "Worker_01" with state := WorkerState.WORKING }
      : WorkerAgent).consecutive_work_time ≤ cfgDemo.rest_time_threshold :=
  rule_a_bounds_consecutive_work_at_work_start cfgDemo crew1 ⟨0, 0, false⟩ 0
    (by decide) _ (by decide)

/-! ## Executor trace structure (towards C8 and C10) -/

lemma reworkTriggered_blank (node : ProcessNode) :
    reworkTriggered node { waitDur := 0, sample := 0, draw := false } = false := by
  simp [reworkTriggered]

lemma mem_preEvents {cfg : GlobalConfig} {eid : ℕ} {node : ProcessNode}
    {crit : List String} {crew : List WorkerAgent} {i : IterInput} {now : ℚ}
    {e : GanttEvent} (h : e ∈ preEvents cfg eid node crit crew i now) :
    e.event_type = GanttEventType.WAITING ∨ e.event_type = GanttEventType.REST := by
  simp only [preEvents] at h
  rcases List.mem_append.mp h with h1 | h1
  · split at h1
    · rcases List.mem_singleton.mp h1 with rfl
      left; rfl
    · cases h1
  · split at h1
    · rcases List.mem_singleton.mp h1 with rfl
      right; rfl
    · cases h1

lemma filter_rework_pre (cfg : GlobalConfig) (eid : ℕ) (node : ProcessNode)
    (crit : List String) (crew : List WorkerAgent) (i : IterInput) (now : ℚ) :
    (preEvents cfg eid node crit crew i now).filter
      (fun e => e.event_type = GanttEventType.REWORK) = [] := by
  rw [List.filter_eq_nil_iff]
  intro e he
  rcases mem_preEvents he with h | h <;> simp [h]

lemma filter_normal_pre (cfg : GlobalConfig) (eid : ℕ) (node : ProcessNode)
    (crit : List String) (crew : List WorkerAgent) (i : IterInput) (now : ℚ) :
    (preEvents cfg eid node crit crew i now).filter
      (fun e => e.event_type = GanttEventType.NORMAL) = [] := by
  rw [List.filter_eq_nil_iff]
  intro e he
  rcases mem_preEvents he with h | h <;> simp [h]

lemma executeTask_rework_law (cfg : GlobalConfig) (eid : ℕ) (node : ProcessNode)
    (crit : List String) :
    ∀ (ins : List IterInput) (crew : List WorkerAgent) (now : ℚ) (rc : ℕ),
    reworkEventCount (executeTask cfg eid node crit ins crew now rc).1 + rc =
      (executeTask cfg eid node crit ins crew now rc).2.1 ∧
    normalReworkCounts (executeTask cfg eid node crit ins crew now rc).1 =
      [(executeTask cfg eid node crit ins crew now rc).2.1] := by
  intro ins
  induction ins with
  | nil =>
    intro crew now rc
    simp only [executeTask, reworkTriggered_blank, Bool.false_eq_true, if_false]
    constructor
    · simp [reworkEventCount, List.filter_append, filter_rework_pre]
    · simp [normalReworkCounts, List.filter_append, filter_normal_pre]
  | cons j rest ih =>
    intro crew now rc
    by_cases hr : reworkTriggered node j = true
    · simp only [executeTask, hr, if_true]
      have ihx := ih (List.map (fun w => { w with state := WorkerState.IDLE })
        (add_work_time_to_workers (preState cfg crew j now).1
          (calculate_duration node.std_duration node.time_variance j.sample)
          node.work_load_score (preState cfg crew j now).2))
        ((preState cfg crew j now).2 +
          calculate_duration node.std_duration node.time_variance j.sample) (rc + 1)
      constructor
      · simp [reworkEventCount, List.filter_append, filter_rework_pre]
        have h1 := ihx.1
        simp [reworkEventCount] at h1
        omega
      · simp [normalReworkCounts, List.filter_append, filter_normal_pre]
        have h2 := ihx.2
        simp [normalReworkCounts] at h2
        exact h2
    · simp only [executeTask, hr, if_false]
      constructor
      · simp [reworkEventCount, List.filter_append, filter_rework_pre]
      · simp [normalReworkCounts, List.filter_append, filter_normal_pre]

lemma mem_preEvents_op {cfg : GlobalConfig} {eid : ℕ} {node : ProcessNode}
    {crit : List String} {crew : List WorkerAgent} {i : IterInput} {now : ℚ}
    {e : GanttEvent} (h : e ∈ preEvents cfg eid node crit crew i now) :
    e.op_type = node.op_type := by
  simp only [preEvents] at h
  rcases List.mem_append.mp h with h1 | h1 <;>
    (split at h1
     · rcases List.mem_singleton.mp h1 with rfl
       rfl
     · cases h1)

lemma executeTask_events_op (cfg : GlobalConfig) (eid : ℕ) (node : ProcessNode)
    (crit : List String) :
    ∀ (ins : List IterInput) (crew : List WorkerAgent) (now : ℚ) (rc : ℕ),
      ∀ e ∈ (executeTask cfg eid node crit ins crew now rc).1,
        e.op_type = node.op_type := by
  intro ins
  induction ins with
  | nil =>
    intro crew now rc e he
    simp only [executeTask, reworkTriggered_blank, Bool.false_eq_true,
      if_false] at he
    rcases List.mem_append.mp he with h1 | h1
    · rcases List.mem_append.mp h1 with h2 | h2
      · exact mem_preEvents_op h2
      · split at h2
        · rcases List.mem_singleton.mp h2 with rfl; rfl
        · cases h2
    · rcases List.mem_singleton.mp h1 with rfl; rfl
  | cons j rest ih =>
    intro crew now rc e he
    by_cases hr : reworkTriggered node j = true
    · simp only [executeTask, hr, if_true] at he
      rcases List.mem_append.mp he with h1 | h1
      · rcases List.mem_append.mp h1 with h2 | h2
        · exact mem_preEvents_op h2
        · rcases List.mem_singleton.mp h2 with rfl; rfl
      · exact ih _ _ _ e h1
    · simp only [executeTask, hr, Bool.false_eq_true, if_false] at he
      rcases List.mem_append.mp he with h1 | h1
      · rcases List.mem_append.mp h1 with h2 | h2
        · exact mem_preEvents_op h2
        · split at h2
          · rcases List.mem_singleton.mp h2 with rfl; rfl
          · cases h2
      · rcases List.mem_singleton.mp h1 with rfl; rfl

lemma executeTask_rc_not_m (cfg : GlobalConfig) (eid : ℕ) (node : ProcessNode)
    (crit : List String) (h : node.op_type ≠ OpType.M) :
    ∀ (ins : List IterInput) (crew : List WorkerAgent) (now : ℚ) (rc : ℕ),
      (executeTask cfg eid node crit ins crew now rc).2.1 = rc := by
  intro ins crew now rc
  have hr : ∀ i, reworkTriggered node i = false := by
    intro i; simp [reworkTriggered, h]
  cases ins with
  | nil => simp only [executeTask, hr, Bool.false_eq_true, if_false]
  | cons j rest => simp only [executeTask, hr, Bool.false_eq_true, if_false]

lemma executeTask_rework_op (cfg : GlobalConfig) (eid : ℕ) (node : ProcessNode)
    (crit : List String) (ins : List IterInput) (crew : List WorkerAgent)
    (now : ℚ) (rc : ℕ) :
    ∀ e ∈ (executeTask cfg eid node crit ins crew now rc).1,
      e.event_type = GanttEventType.REWORK → e.op_type = OpType.M := by
  intro e he hrw
  by_cases hm : node.op_type = OpType.M
  · rw [executeTask_events_op cfg eid node crit ins crew now rc e he, hm]
  · exfalso
    have hc := (executeTask_rework_law cfg eid node crit ins crew now rc).1
    rw [executeTask_rc_not_m cfg eid node crit hm ins crew now rc] at hc
    have hzero : reworkEventCount
        (executeTask cfg eid node crit ins crew now rc).1 = 0 := by omega
    have hmem : e ∈ (executeTask cfg eid node crit ins crew now rc).1.filter
        (fun e => e.event_type = GanttEventType.REWORK) :=
      List.mem_filter.mpr ⟨he, by simp [hrw]⟩
    rw [List.length_eq_zero.mp hzero] at hmem
    cases hmem

/-! ## C8 — rework law -/

/-- C8: for every task instance that reaches completion, the number of
REWORK events in its trace equals the `rework_count` carried on its final
(and only) NORMAL event — both equal the returned rework counter; and for
a task whose op type is not `M` the rework counter, hence the REWORK
count, is 0. -/
theorem rework_count_matches_rework_events (cfg : GlobalConfig) (eid : ℕ)
    (node : ProcessNode) (crit : List String) (ins : List IterInput)
    (crew : List WorkerAgent) (now : ℚ) :
    reworkEventCount (executeTask cfg eid node crit ins crew now 0).1 =
      (executeTask cfg eid node crit ins crew now 0).2.1 ∧
    normalReworkCounts (executeTask cfg eid node crit ins crew now 0).1 =
      [(executeTask cfg eid node crit ins crew now 0).2.1] ∧
    (node.op_type = OpType.M ∨
      reworkEventCount (executeTask cfg eid node crit ins crew now 0).1 = 0) := by
  have hl := executeTask_rework_law cfg eid node crit ins crew now 0
  refine ⟨by have h1 := hl.1; omega, hl.2, ?_⟩
  by_cases hm : node.op_type = OpType.M
  · exact Or.inl hm
  · right
    have h1 := hl.1
    rw [executeTask_rc_not_m cfg eid node crit hm ins crew now 0] at h1
    omega

/-! ## C10 — first-pass rate stays in the unit interval -/

lemma collect_rework_le_inspections (events : List GanttEvent)
    (h : ∀ e ∈ events, e.event_type = GanttEventType.REWORK →
      e.op_type = OpType.M) :
    (collectStats events).total_reworks ≤
      (collectStats events).total_inspections := by
  have h1 := foldl_addEvent_inspections events CollectorStats.init
  have h2 := foldl_addEvent_reworks events CollectorStats.init
  simp only [collectStats] at h1 h2 ⊢
  rw [h1, h2]
  have hmono : reworkEventCount events ≤ mEventCount events := by
    apply length_filter_le_of_imp
    intro x hx hp
    have := h x hx (by simpa using hp)
    simpa using this
  simp [CollectorStats.init]
  omega

lemma first_pass_rate_bounds (s : CollectorStats)
    (h : s.total_reworks ≤ s.total_inspections) :
    0 ≤ first_pass_rate s ∧ first_pass_rate s ≤ 1 := by
  unfold first_pass_rate
  split
  · rename_i hpos
    have hposq : (0 : ℚ) < (s.total_inspections : ℚ) := by exact_mod_cast hpos
    have hq : (s.total_reworks : ℚ) ≤ (s.total_inspections : ℚ) := by
      exact_mod_cast h
    have hr0 : (0 : ℚ) ≤ (s.total_reworks : ℚ) := by positivity
    constructor
    · apply div_nonneg (by linarith) (le_of_lt hposq)
    · rw [div_le_one hposq]
      linarith
  · norm_num

/-- C10: over the joined event log of any collection of task-executor
invocations, `total_reworks` never exceeds `total_inspections` — every
REWORK event the kernel appends carries op type `M` and so bumps both
counters — and the first-pass rate, defined as 1.0 when there are no
inspections, always lies in `[0, 1]`. -/
theorem first_pass_rate_in_unit_interval (calls : List ExecCall) :
    (collectStats ((calls.map execCallEvents).flatten)).total_reworks ≤
      (collectStats ((calls.map execCallEvents).flatten)).total_inspections ∧
    0 ≤ first_pass_rate (collectStats ((calls.map execCallEvents).flatten)) ∧
    first_pass_rate (collectStats ((calls.map execCallEvents).flatten)) ≤ 1 := by
  have hprem : ∀ e ∈ (calls.map execCallEvents).flatten,
      e.event_type = GanttEventType.REWORK → e.op_type = OpType.M := by
    intro e he hrw
    rcases List.mem_flatten.mp he with ⟨l, hl, hel⟩
    rcases List.mem_map.mp hl with ⟨c, _, rfl⟩
    exact executeTask_rework_op c.cfg c.engine_id c.node c.crit c.ins c.crew
      c.startTime 0 e hel hrw
  have hle := collect_rework_le_inspections _ hprem
  exact ⟨hle, first_pass_rate_bounds _ hle⟩

/-! ## C5 — boundary scenario S1 -/

/-- C5 (counterexample): on the S1 scenario (one task with mu = 10,
sigma = 0, w = 5, p = 0, one worker, T = 60, target 1) the sequential
driver's loop runs while `engine_id <= target_output + 1`, so after the
first unit completes at t = 10 a second engine is started and also
completes within the budget: `engines_completed` is 2, not 1 as the
claim states. -/
theorem s1_engines_completed_two_not_one :
    (seqRun s1cfg s1node).completed = 2 ∧ (2 : ℕ) ≠ 1 := by
  refine ⟨by with_unfolding_all decide, by decide⟩

/-- C5 (amended): on S1 the run completes 2 engines (the sequential mode
admits up to `target_output + 1` units), the event log holds exactly 2
NORMAL events (one per unit, at [0,10] and [10,20]), and the average
cycle time is 10 minutes as claimed. -/
theorem s1_sequential_run_results :
    (seqRun s1cfg s1node).completed = 2 ∧
    normalEventCount (seqRun s1cfg s1node).events = 2 ∧
    avgCycleTime (seqRun s1cfg s1node) = 10 := by
  refine ⟨by with_unfolding_all decide, by with_unfolding_all decide,
    by with_unfolding_all decide⟩

/-! ## C2 — graph validation at kernel entry -/

lemma mem_buildEdges {nodes : List ProcessNode} {a b : String}
    (h : (a, b) ∈ buildEdges nodes) :
    a ∈ nodeIds nodes ∧ b ∈ nodeIds nodes := by
  rcases List.mem_flatMap.mp h with ⟨n, hn, hmem⟩
  rcases List.mem_map.mp hmem with ⟨p, hp, heq⟩
  have hfil := List.mem_filter.mp hp
  obtain ⟨ha, hb⟩ : p = a ∧ n.step_id = b := by
    constructor <;> [exact congrArg Prod.fst heq; exact congrArg Prod.snd heq]
  subst ha hb
  refine ⟨by simpa using hfil.2, ?_⟩
  exact List.mem_map.mpr ⟨n, hn, rfl⟩

lemma chain_pred {edges : List (String × String)} :
    ∀ (a : String) (l : List String),
      List.Chain (fun x y => (x, y) ∈ edges) a l →
      ∀ x ∈ l, ∃ u ∈ a :: l, (u, x) ∈ edges := by
  intro a l
  induction l generalizing a with
  | nil => intro _ x hx; cases hx
  | cons b t ih =>
    intro h x hx
    rw [List.chain_cons] at h
    rcases List.mem_cons.mp hx with rfl | hxt
    · exact ⟨a, List.mem_cons_self _ _, h.1⟩
    · rcases ih b h.2 x hxt with ⟨u, hu, hedge⟩
      exact ⟨u, List.mem_cons_of_mem a hu, hedge⟩

lemma cycle_closed {edges : List (String × String)} {v : String}
    {vs : List String} (h : IsCycle edges v vs) :
    ∀ x ∈ v :: vs, ∃ u ∈ v :: vs, (u, x) ∈ edges := by
  intro x hx
  have hc := chain_pred v (vs ++ [v]) h
  have hx2 : x ∈ vs ++ [v] := by
    rcases List.mem_cons.mp hx with rfl | h2
    · exact List.mem_append.mpr (Or.inr (List.mem_singleton.mpr rfl))
    · exact List.mem_append.mpr (Or.inl h2)
  rcases hc x hx2 with ⟨u, hu, hedge⟩
  have hu2 : u ∈ v :: vs := by
    rcases List.mem_cons.mp hu with rfl | h2
    · exact List.mem_cons_self _ _
    · rcases List.mem_append.mp h2 with h3 | h3
      · exact List.mem_cons_of_mem _ h3
      · rcases List.mem_singleton.mp h3 with rfl
        exact List.mem_cons_self _ _
  exact ⟨u, hu2, hedge⟩

lemma kahnStep_keeps {edges : List (String × String)} {S remaining : List String}
    (hS : ∀ x ∈ S, ∃ u ∈ S, (u, x) ∈ edges)
    (hsub : ∀ x ∈ S, x ∈ remaining) :
    ∀ x ∈ S, x ∈ kahnStep edges remaining := by
  intro x hx
  rcases hS x hx with ⟨u, hu, hedge⟩
  refine List.mem_filter.mpr ⟨hsub x hx, ?_⟩
  simp only [hasIncomingFrom, List.any_eq_true]
  exact ⟨(u, x), hedge, by simp [hsub u hu]⟩

lemma kahnIter_keeps {edges : List (String × String)} {S : List String}
    (hS : ∀ x ∈ S, ∃ u ∈ S, (u, x) ∈ edges) :
    ∀ (n : ℕ) (remaining : List String), (∀ x ∈ S, x ∈ remaining) →
      ∀ x ∈ S, x ∈ kahnIter edges n remaining := by
  intro n
  induction n with
  | zero => intro remaining hsub x hx; exact hsub x hx
  | succ k ih =>
    intro remaining hsub x hx
    exact ih (kahnStep edges remaining) (kahnStep_keeps hS hsub) x hx

/-- C2 (counterexample): a process whose second task references the
predecessor id "INVALID", which no task declares, passes `validate` and
the run proceeds to scheduling — `_build_graph` silently drops the
dangling reference, so the claim that `run` rejects every graph with a
missing predecessor is false. -/
theorem missing_predecessor_passes_validation :
    runValidationGate missingPredProcess = none ∧
    (∃ n ∈ missingPredProcess, "INVALID" ∈ n.predecessors) ∧
    "INVALID" ∉ nodeIds missingPredProcess := by
  refine ⟨by with_unfolding_all decide, by with_unfolding_all decide,
    by with_unfolding_all decide⟩

/-- C2 (amended): validation runs before any event is scheduled and
rejects every graph whose built edge relation contains a cycle —
including a self-loop — returning a failed result with an empty event
log; but a predecessor reference to an id not among the tasks is
silently dropped rather than rejected. -/
theorem cycle_rejected_with_failed_result_and_empty_log
    (nodes : List ProcessNode) (v : String) (vs : List String)
    (h : IsCycle (buildEdges nodes) v vs) :
    runValidationGate nodes =
      some { failed := true, engines_completed := 0, gantt_events := [] } := by
  have hclosed := cycle_closed h
  have hsub : ∀ x ∈ v :: vs, x ∈ nodeIds nodes := by
    intro x hx
    rcases hclosed x hx with ⟨u, _, hedge⟩
    exact (mem_buildEdges hedge).2
  have hv := kahnIter_keeps hclosed ((nodeIds nodes).length) (nodeIds nodes)
    hsub v (List.mem_cons_self _ _)
  have hne : (kahnIter (buildEdges nodes) (nodeIds nodes).length
      (nodeIds nodes)).isEmpty = false := by
    cases hk : kahnIter (buildEdges nodes) (nodeIds nodes).length
        (nodeIds nodes) with
    | nil => rw [hk] at hv; cases hv
    | cons a t => rfl
  simp [runValidationGate, validateGraph, isAcyclicB, hne]

/-- Witness for C2's amended theorem: the self-loop process is rejected
with a failed result and no events. -/
theorem cycle_rejected_witness :
    runValidationGate selfLoopProcess =
      some { failed := true, engines_completed := 0, gantt_events := [] } :=
  cycle_rejected_with_failed_result_and_empty_log selfLoopProcess "A" [] (by
    simp only [IsCycle, List.nil_append, List.chain_cons]
    exact ⟨by decide, List.Chain.nil⟩)

/-! ## C9 — equipment capacity bounds usage -/

lemma usageSum_cons (now : ℚ) (en : EqLogEntry) (log : List EqLogEntry) :
    usageSum now (en :: log) = usageSum now log +
      (match en.closeTime with
       | some e => e - en.start
       | none => now - en.start) := by
  rfl

lemma usageSum_advance (now δ : ℚ) :
    ∀ log : List EqLogEntry,
      usageSum (now + δ) log = usageSum now log + (openCount log : ℚ) * δ := by
  intro log
  induction log with
  | nil => simp [usageSum, openCount]
  | cons en rest ih =>
    rw [usageSum_cons, usageSum_cons, ih]
    cases hc : en.closeTime with
    | some e => simp [openCount, List.filter_cons, hc]; ring
    | none =>
      have hcnt : openCount (en :: rest) = openCount rest + 1 := by
        simp [openCount, List.filter_cons, hc]
      rw [hcnt]
      push_cast
      ring

lemma usageSum_closeFirstOpen (now : ℚ) :
    ∀ log : List EqLogEntry,
      usageSum now (closeFirstOpen now log) = usageSum now log := by
  intro log
  induction log with
  | nil => rfl
  | cons en rest ih =>
    simp only [closeFirstOpen]
    split
    · rename_i hopen
      rw [usageSum_cons, usageSum_cons, hopen]
    · rw [usageSum_cons, usageSum_cons, ih]

lemma openCount_closeFirstOpen (now : ℚ) :
    ∀ log : List EqLogEntry, 0 < openCount log →
      openCount (closeFirstOpen now log) + 1 = openCount log := by
  intro log
  induction log with
  | nil => intro h; simp [openCount] at h
  | cons en rest ih =>
    intro h
    simp only [closeFirstOpen]
    split
    · rename_i hopen
      simp [openCount, List.filter_cons, hopen]
    · rename_i hclosed
      have hrest : 0 < openCount rest := by
        simpa [openCount, List.filter_cons, hclosed] using h
      have := ih hrest
      simp [openCount, List.filter_cons, hclosed] at this ⊢
      omega

lemma eqInv_init (c : ℕ) : EqInv c EqState.init := by
  refine ⟨Nat.zero_le c, rfl, ?_⟩
  simp [EqState.init, usageSum]

lemma eqInv_step {c : ℕ} {st : EqState} {op : EqOp} (h : EqInv c st)
    (hg : eqGuard c st op = true) : EqInv c (eqStep st op) := by
  obtain ⟨h1, h2, h3⟩ := h
  cases op with
  | advance δ =>
    have hδ : 0 ≤ δ := by simpa [eqGuard] using hg
    refine ⟨h1, h2, ?_⟩
    simp only [eqStep]
    rw [usageSum_advance]
    have hcount : (openCount st.log : ℚ) ≤ (c : ℚ) := by
      exact_mod_cast h2 ▸ h1
    have hmul : (openCount st.log : ℚ) * δ ≤ (c : ℚ) * δ :=
      mul_le_mul_of_nonneg_right hcount hδ
    nlinarith
  | grant =>
    have hlt : st.inUse < c := by simpa [eqGuard] using hg
    refine ⟨hlt, ?_, ?_⟩
    · show openCount ({ start := st.now, closeTime := none } :: st.log) =
        st.inUse + 1
      have hnew : openCount ({ start := st.now, closeTime := none } :: st.log) =
          openCount st.log + 1 := by simp [openCount, List.filter_cons]
      rw [hnew, h2]
    · show usageSum st.now ({ start := st.now, closeTime := none } :: st.log) ≤
        (c : ℚ) * st.now
      rw [usageSum_cons]
      simpa using h3
  | release =>
    have hpos : 0 < st.inUse := by simpa [eqGuard] using hg
    have hopen : 0 < openCount st.log := by rw [h2]; exact hpos
    have hclose := openCount_closeFirstOpen st.now st.log hopen
    refine ⟨?_, ?_, ?_⟩
    · show st.inUse - 1 ≤ c
      omega
    · show openCount (closeFirstOpen st.now st.log) = st.inUse - 1
      omega
    · show usageSum st.now (closeFirstOpen st.now st.log) ≤ (c : ℚ) * st.now
      rw [usageSum_closeFirstOpen]
      exact h3

lemma eqRun_inv {c : ℕ} :
    ∀ (ops : List EqOp) (st : EqState), EqInv c st →
      eqValid c st ops = true → EqInv c (eqRun st ops) := by
  intro ops
  induction ops with
  | nil => intro st h _; exact h
  | cons op rest ih =>
    intro st h hv
    rw [eqValid, Bool.and_eq_true] at hv
    exact ih (eqStep st op) (eqInv_step h hv.1) hv.2

lemma eqValid_of_append {c : ℕ} :
    ∀ (pre suf : List EqOp) (st : EqState),
      eqValid c st (pre ++ suf) = true → eqValid c st pre = true := by
  intro pre
  induction pre with
  | nil => intro _ _ _; rfl
  | cons op rest ih =>
    intro suf st hv
    rw [List.cons_append, eqValid, Bool.and_eq_true] at hv
    rw [eqValid, Bool.and_eq_true]
    exact ⟨hv.1, ih suf (eqStep st op) hv.2⟩

/-- C9: along every valid usage trace of a critical equipment of
capacity `c` (grants only below capacity, releases only by holders,
clock monotone), at most `c` usage intervals are open at every point of
the run, the summed usage `Σ (end - start)` — open intervals counted up
to the current clock, as `get_equipment_utilization` does — never
exceeds `c` times the elapsed time, and the reported utilisation rate is
at most 1. -/
theorem equipment_usage_bounded_by_capacity_times_duration (c : ℕ)
    (ops : List EqOp) (h : eqValid c EqState.init ops = true) :
    (∀ pre suf, ops = pre ++ suf →
      openCount (eqRun EqState.init pre).log ≤ c) ∧
    usageSum (eqRun EqState.init ops).now (eqRun EqState.init ops).log ≤
      (c : ℚ) * (eqRun EqState.init ops).now ∧
    utilizationRate c (eqRun EqState.init ops).now
      (usageSum (eqRun EqState.init ops).now (eqRun EqState.init ops).log) ≤
      1 := by
  have hinv := eqRun_inv ops EqState.init (eqInv_init c) h
  refine ⟨?_, hinv.2.2, ?_⟩
  · intro pre suf hsplit
    have hvp : eqValid c EqState.init pre = true :=
      eqValid_of_append pre suf EqState.init (hsplit ▸ h)
    have hp := eqRun_inv pre EqState.init (eqInv_init c) hvp
    rw [hp.2.1]
    exact hp.1
  · unfold utilizationRate
    split
    · rename_i hpos
      rw [div_le_one hpos]
      calc usageSum (eqRun EqState.init ops).now (eqRun EqState.init ops).log
          ≤ (c : ℚ) * (eqRun EqState.init ops).now := hinv.2.2
        _ = (eqRun EqState.init ops).now * (c : ℚ) := by ring
    · norm_num

/-- Witness for C9 on a concrete capacity-1 trace. -/
theorem equipment_usage_bounded_witness :
    usageSum (eqRun EqState.init eqOpsDemo).now
      (eqRun EqState.init eqOpsDemo).log ≤
      ((1 : ℕ) : ℚ) * (eqRun EqState.init eqOpsDemo).now :=
  (equipment_usage_bounded_by_capacity_times_duration 1 eqOpsDemo
    (by with_unfolding_all decide)).2.1

end SimKernel
